import Mathlib

/-!
Verification of the jellyroll-web video player core against its
natural-language specification.

The development shallowly embeds the player's state and operations from
`src/components/video/VideoPlayer.tsx` (volume and caption handling) and
`src/components/video/InfoOverlay.tsx` (the scrub-preview `ProgressBar`:
debounced seeking, frame cache, movement suppression, letterbox drawing).
Floating-point times, volumes and pixel positions are modelled as exact
rationals; JavaScript timer handles are modelled as optional
`(fire-time, payload)` pairs; the DOM `Map` frame cache is an association
list where the most recent write shadows older ones.
-/

namespace Jellyroll

/-! ## Volume state (VideoPlayer.tsx)

`volume` and `previousVolume` are the two React state cells of
`VideoPlayer`; `handleVolumeChange` and `handleVolumeMuteToggle` are the
two operations that write them (lines 178-192).
-/

structure VolumeState where
  volume : ℚ
  previousVolume : ℚ
deriving Repr, DecidableEq

/-- `handleVolumeChange` (VideoPlayer.tsx lines 178-183): stores the new
volume unconditionally and, when it is strictly positive, also records it
as `previousVolume`. -/
def handleVolumeChange (s : VolumeState) (newVolume : ℚ) : VolumeState :=
  { volume := newVolume
    previousVolume := if 0 < newVolume then newVolume else s.previousVolume }

/-- `handleVolumeMuteToggle` (VideoPlayer.tsx lines 185-192): if the
volume is positive, remember it and mute; otherwise restore the
remembered volume. -/
def handleVolumeMuteToggle (s : VolumeState) : VolumeState :=
  if 0 < s.volume then
    { volume := 0, previousVolume := s.volume }
  else
    { s with volume := s.previousVolume }

/-- A user-level volume operation: a slider change or a mute toggle. -/
inductive VolumeOp where
  | set (v : ℚ)
  | mute
deriving Repr, DecidableEq

def applyVolumeOp (s : VolumeState) : VolumeOp → VolumeState
  | .set v => handleVolumeChange s v
  | .mute => handleVolumeMuteToggle s

def runVolumeOps (s : VolumeState) (ops : List VolumeOp) : VolumeState :=
  List.foldl applyVolumeOp s ops

/-! ## Caption subsystem (VideoPlayer.tsx)

Text tracks of the primary video element are modelled as a list of
(label, mode) records; `selectedTrack` and `showCaptions` are the React
state cells, and `persistedTrack` models the `localStorage` key
`jellyroll_player_caption_track` kept in sync by the effect on
`selectedTrack` (lines 119-125).
-/

inductive TrackMode where
  | disabled
  | hidden
  | showing
deriving Repr, DecidableEq

structure TextTrack where
  label : String
  mode : TrackMode
deriving Repr, DecidableEq

structure CaptionState where
  tracks : List TextTrack
  selectedTrack : String
  showCaptions : Bool
  persistedTrack : Option String
deriving Repr, DecidableEq

/-- `tracks.forEach(track => track.mode = 'disabled')`. -/
def disableAll (ts : List TextTrack) : List TextTrack :=
  ts.map fun t => { t with mode := .disabled }

/-- `Array.from(video.textTracks).find(t => t.label === lbl)`. -/
def findTrack (ts : List TextTrack) (lbl : String) : Option TextTrack :=
  ts.find? fun t => t.label == lbl

/-- Mutating the first track whose label matches to `showing` mode, the
effect of `track.mode = 'showing'` on the object returned by `find`. -/
def showFirst : List TextTrack → String → List TextTrack
  | [], _ => []
  | t :: rest, lbl =>
    if t.label == lbl then { t with mode := .showing } :: rest
    else t :: showFirst rest lbl

/-- `setSelectedTrack(lbl)` together with the persistence effect on
`selectedTrack` (lines 119-125): a nonempty label is stored under the
caption-track key, an empty one removes it. -/
def setSelectedPersist (s : CaptionState) (lbl : String) : CaptionState :=
  { s with
    selectedTrack := lbl
    persistedTrack := if lbl == "" then none else some lbl }

/-- `handleTrackSelect` (VideoPlayer.tsx lines 260-279): disable every
track, then enable the first one matching the label; the state updates
happen only when the lookup succeeds. -/
def handleTrackSelect (s : CaptionState) (trackLabel : String) : CaptionState :=
  let ts := disableAll s.tracks
  match findTrack ts trackLabel with
  | some _ =>
    setSelectedPersist
      { s with tracks := showFirst ts trackLabel, showCaptions := true }
      trackLabel
  | none => { s with tracks := ts }

/-- `handleCaptionToggle` (VideoPlayer.tsx lines 221-258). Turning on:
restore the remembered track if it still exists (disabling all others
first), else enable the first track without touching the others.
Turning off: disable every track. -/
def handleCaptionToggle (s : CaptionState) : CaptionState :=
  if s.showCaptions = false then
    match (if s.selectedTrack == "" then none else findTrack s.tracks s.selectedTrack) with
    | some _ =>
      { s with
        tracks := showFirst (disableAll s.tracks) s.selectedTrack
        showCaptions := true }
    | none =>
      match s.tracks with
      | [] => s
      | t :: rest =>
        setSelectedPersist
          { s with tracks := { t with mode := .showing } :: rest, showCaptions := true }
          t.label
  else
    { s with tracks := disableAll s.tracks, showCaptions := false }

/-- `handleTracksChange` (VideoPlayer.tsx lines 79-100), run on
`loadedmetadata`: disable every track, then re-enable the remembered one
when captions are enabled and the label still matches a track. -/
def handleTracksChange (s : CaptionState) : CaptionState :=
  let ts := disableAll s.tracks
  if s.selectedTrack != "" && s.showCaptions then
    match findTrack ts s.selectedTrack with
    | some _ => { s with tracks := showFirst ts s.selectedTrack }
    | none => { s with tracks := ts }
  else
    { s with tracks := ts }

/-- A caption operation: metadata-load enumeration, the captions toggle,
or selecting a track from the menu. -/
inductive CaptionOp where
  | tracksChange
  | toggle
  | select (lbl : String)
deriving Repr, DecidableEq

def applyCaptionOp (s : CaptionState) : CaptionOp → CaptionState
  | .tracksChange => handleTracksChange s
  | .toggle => handleCaptionToggle s
  | .select lbl => handleTrackSelect s lbl

def runCaptionOps (s : CaptionState) (ops : List CaptionOp) : CaptionState :=
  List.foldl applyCaptionOp s ops

/-- The number of tracks currently in `showing` mode. -/
def countShowing (ts : List TextTrack) : Nat :=
  (ts.filter fun t => t.mode == .showing).length

/-- Inductive caption invariant: at most one track is showing, and none
is showing while captions are off. -/
def CaptionInv (s : CaptionState) : Prop :=
  countShowing s.tracks ≤ 1 ∧ (s.showCaptions = false → countShowing s.tracks = 0)

instance (s : CaptionState) : Decidable (CaptionInv s) := by
  unfold CaptionInv
  infer_instance

/-! ## Scrub preview: frame cache and debounced seek (InfoOverlay.tsx)

`previewCache` is a `Map<number, string>` from floored seconds to JPEG
data URLs; it is modelled as an association list whose most recent write
shadows older entries. The debounce closure's `timeoutId` and the seek it
would perform are modelled as an optional `(fire-time, target)` pair;
`issuedSeeks` records every assignment to the hidden preview element's
`currentTime`, in order.
-/

structure DebounceState where
  cache : List (Int × String)
  pendingSeek : Option (Nat × ℚ)
  canvas : Option String
  issuedSeeks : List ℚ
deriving Repr, DecidableEq

/-- `previewCache.current.get(k)`. -/
def cacheGet : List (Int × String) → Int → Option String
  | [], _ => none
  | (k2, v) :: rest, k => if k = k2 then some v else cacheGet rest k

/-- `previewCache.current.set(k, v)`: the new entry shadows any older
one for the same key. -/
def cacheSet (cache : List (Int × String)) (k : Int) (v : String) : List (Int × String) :=
  (k, v) :: cache

/-- `debouncedSeek` (InfoOverlay.tsx lines 147-181), called with the
wall-clock time `now` of the invocation: clear any pending timeout; on a
cache hit for `floor(time)` draw the cached frame and return; otherwise
schedule a seek of the hidden element for 150 ms later. -/
def debouncedSeek (s : DebounceState) (now : Nat) (time : ℚ) : DebounceState :=
  let cleared := { s with pendingSeek := none }
  let roundedTime := Int.floor time
  match cacheGet cleared.cache roundedTime with
  | some frame => { cleared with canvas := some frame }
  | none => { cleared with pendingSeek := some (now + 150, time) }

/-- The debounce timeout firing: once the wall clock reaches the
scheduled fire time, `previewVideoRef.current.currentTime = time` runs
and the timeout is spent. -/
def fireDueSeek (s : DebounceState) (now : Nat) : DebounceState :=
  match s.pendingSeek with
  | some (fireAt, target) =>
    if fireAt ≤ now then
      { s with pendingSeek := none, issuedSeeks := s.issuedSeeks ++ [target] }
    else s
  | none => s

/-- Run a burst of `debouncedSeek` calls, each tagged with its arrival
time; before each call any timeout already due has fired. -/
def runDebounce : DebounceState → List (Nat × ℚ) → DebounceState
  | s, [] => s
  | s, (t, x) :: rest => runDebounce (debouncedSeek (fireDueSeek s t) t x) rest

/-- Consecutive arrivals each land inside the previous request's 150 ms
debounce window. -/
def gapsOk : List (Nat × ℚ) → Bool
  | [] => true
  | [_] => true
  | (t1, _) :: (t2, x2) :: rest => decide (t2 < t1 + 150) && gapsOk ((t2, x2) :: rest)

/-- The last request of a nonempty burst, written with an explicit
default head. -/
def lastReq (d : Nat × ℚ) : List (Nat × ℚ) → Nat × ℚ
  | [] => d
  | p :: rest => lastReq p rest

/-! ## Scrub preview: frame rasterization (InfoOverlay.tsx `handleSeeked`) -/

structure DrawRect where
  drawWidth : ℚ
  drawHeight : ℚ
  offsetX : ℚ
  offsetY : ℚ
deriving Repr, DecidableEq

/-- The aspect-ratio layout computed inside `handleSeeked`
(InfoOverlay.tsx lines 108-133): when the video is wider than the canvas
the height is matched and the width scaled from the video aspect,
otherwise the width is matched and the height scaled. -/
def computeDrawRect (videoWidth videoHeight canvasWidth canvasHeight : ℚ) : DrawRect :=
  let videoAspect := videoWidth / videoHeight
  let canvasAspect := canvasWidth / canvasHeight
  if canvasAspect < videoAspect then
    { drawWidth := canvasHeight * videoAspect
      drawHeight := canvasHeight
      offsetX := (canvasWidth - canvasHeight * videoAspect) / 2
      offsetY := 0 }
  else
    { drawWidth := canvasWidth
      drawHeight := canvasWidth / videoAspect
      offsetX := 0
      offsetY := (canvasHeight - canvasWidth / videoAspect) / 2 }

/-- `handleSeeked` (InfoOverlay.tsx lines 103-141) as it acts on the
debounce state: the decoded frame is drawn and cached under the floor of
the hidden element's current time. -/
def handleSeeked (s : DebounceState) (videoCurrentTime : ℚ) (dataUrl : String) : DebounceState :=
  { s with
    canvas := some dataUrl
    cache := cacheSet s.cache (Int.floor videoCurrentTime) dataUrl }

/-! ## Scrub preview: hover handling and movement suppression -/

structure ProgressBarState where
  deb : DebounceState
  previewTime : Option ℚ
  previewPosition : ℚ
  isMoving : Bool
  lastPosition : Option ℚ
  lastMoveTime : Nat
  moveTimeout : Option (Nat × ℚ)
  containerWidth : ℚ
  isPlaying : Bool
deriving Repr, DecidableEq

/-- `handleProgressHover` (InfoOverlay.tsx lines 191-246): compute the
hovered fraction and target time, clear the canvas, publish preview time
and position, run `debouncedSeek`, then apply movement suppression with
a boundary exemption within 160 px of either end of the track. -/
def handleProgressHover (s : ProgressBarState) (now : Nat)
    (clientX rectLeft rectWidth duration : ℚ) : ProgressBarState :=
  if s.isPlaying then s
  else
    let pos := (clientX - rectLeft) / rectWidth
    let time := pos * duration
    let newPosition := clientX - rectLeft
    let s1 := { s with deb := { s.deb with canvas := none } }
    let s2 := { s1 with previewTime := some time, previewPosition := newPosition }
    let s3 := { s2 with deb := debouncedSeek s2.deb now time }
    let isAtBoundary := newPosition ≤ 160 ∨ s.containerWidth - 160 ≤ newPosition
    let s4 :=
      if isAtBoundary then { s3 with isMoving := false }
      else
        let distance : ℚ :=
          match s.lastPosition with
          | some p => |newPosition - p|
          | none => 0
        let s3a := { s3 with moveTimeout := none }
        let s3b :=
          if 5 < distance then { s3a with isMoving := true, lastMoveTime := now }
          else s3a
        { s3b with moveTimeout := some (now + 200, newPosition) }
    { s4 with lastPosition := some newPosition }

/-- The movement-suppression timeout firing (InfoOverlay.tsx lines
231-239): if the pointer has not moved beyond the 5 px threshold since
the capture, restore the expanded preview. -/
def fireMoveTimeout (s : ProgressBarState) (now : Nat) : ProgressBarState :=
  match s.moveTimeout with
  | some (fireAt, captured) =>
    if fireAt ≤ now then
      let currentDistance : ℚ :=
        match s.lastPosition with
        | some p => |captured - p|
        | none => 0
      let s1 := { s with moveTimeout := none }
      if currentDistance ≤ 5 then { s1 with isMoving := false } else s1
    else s
  | none => s

/-- The debounce timeout firing, lifted to the progress-bar state. -/
def fireSeekPB (s : ProgressBarState) (now : Nat) : ProgressBarState :=
  { s with deb := fireDueSeek s.deb now }

/-- The track's `onMouseLeave` handler (InfoOverlay.tsx lines 279-282):
`onPreviewTimeChange(null); setIsMoving(false)`. -/
def onMouseLeave (s : ProgressBarState) : ProgressBarState :=
  { s with previewTime := none, isMoving := false }

/-- The rendered `left` style of the preview box (InfoOverlay.tsx lines
317-320): `Math.min(Math.max(160, previewPosition), containerWidth - 160)`. -/
def renderedLeft (previewPosition containerWidth : ℚ) : ℚ :=
  min (max 160 previewPosition) (containerWidth - 160)

/-- The progress bar's initial state for a 1000 px track while paused:
empty frame cache, no pending timers, no recorded pointer position. -/
def pbInit : ProgressBarState :=
  { deb := { cache := [], pendingSeek := none, canvas := none, issuedSeeks := [] }
    previewTime := none
    previewPosition := 0
    isMoving := false
    lastPosition := none
    lastMoveTime := 0
    moveTimeout := none
    containerWidth := 1000
    isPlaying := false }

/-! ## Theorems: volume -/

/-- C5. Mute/unmute round-trip: from any strictly positive volume `v`,
one `handleVolumeMuteToggle` call sets the volume to 0 while recording
`v` as the previous volume, and a second call restores the volume to
exactly `v`; two toggles are the identity on the volume component. -/
theorem muteToggle_roundTrip (s : VolumeState) (h : 0 < s.volume) :
    (handleVolumeMuteToggle s).volume = 0 ∧
    (handleVolumeMuteToggle s).previousVolume = s.volume ∧
    (handleVolumeMuteToggle (handleVolumeMuteToggle s)).volume = s.volume := by
  unfold handleVolumeMuteToggle
  rw [if_pos h]
  simp

/-- Witness for C5 at the spec's example volume 0.7. -/
theorem muteToggle_roundTrip_witness :
    (0 : ℚ) < 7/10 ∧
    (handleVolumeMuteToggle ⟨7/10, 1⟩).volume = 0 ∧
    (handleVolumeMuteToggle ⟨7/10, 1⟩).previousVolume = 7/10 ∧
    (handleVolumeMuteToggle (handleVolumeMuteToggle ⟨7/10, 1⟩)).volume = 7/10 := by
  refine ⟨by norm_num, ?_⟩
  exact muteToggle_roundTrip ⟨7/10, 1⟩ (by norm_num)

/-- C6 counterexample: `handleVolumeChange` does not clamp. Input 2 from
the initial state leaves the stored volume at 2, outside `[0, 1]`. -/
theorem setVolume_no_clamp_counterexample :
    (handleVolumeChange ⟨1, 1⟩ 2).volume = 2 ∧ ¬ (handleVolumeChange ⟨1, 1⟩ 2).volume ≤ 1 := by
  constructor
  · rfl
  · rw [show (handleVolumeChange ⟨1, 1⟩ 2).volume = 2 from rfl]
    norm_num

/-- C6 amended: `handleVolumeChange` stores exactly the input volume,
with no clamping; whenever the input is strictly positive it also
becomes the new `previousVolume`, and a non-positive input leaves
`previousVolume` unchanged. An input already inside `[0, 1]` therefore
leaves the volume inside `[0, 1]`, but out-of-range inputs are stored
as-is. -/
theorem setVolume_postcondition (s : VolumeState) (v : ℚ) :
    (handleVolumeChange s v).volume = v ∧
    (0 < v → (handleVolumeChange s v).previousVolume = v) ∧
    (¬ 0 < v → (handleVolumeChange s v).previousVolume = s.previousVolume) ∧
    (0 ≤ v ∧ v ≤ 1 → 0 ≤ (handleVolumeChange s v).volume ∧ (handleVolumeChange s v).volume ≤ 1) := by
  refine ⟨rfl, fun h => ?_, fun h => ?_, fun h => ?_⟩
  · simp [handleVolumeChange, h]
  · simp [handleVolumeChange, h]
  · exact h

/-- Witness for C6 (amended) at input 3/4 from the initial state. -/
theorem setVolume_postcondition_witness :
    (handleVolumeChange ⟨1, 1⟩ (3/4)).volume = 3/4 ∧
    (handleVolumeChange ⟨1, 1⟩ (3/4)).previousVolume = 3/4 := by
  refine ⟨(setVolume_postcondition ⟨1, 1⟩ (3/4)).1, ?_⟩
  exact (setVolume_postcondition ⟨1, 1⟩ (3/4)).2.1 (by norm_num)

/-- The two volume operations never overwrite `previousVolume` with a
non-positive value. -/
theorem applyVolumeOp_prev_pos (s : VolumeState) (op : VolumeOp)
    (h : 0 < s.previousVolume) : 0 < (applyVolumeOp s op).previousVolume := by
  cases op with
  | set v =>
    by_cases hv : 0 < v
    · simp [applyVolumeOp, handleVolumeChange, hv]
    · simpa [applyVolumeOp, handleVolumeChange, hv] using h
  | mute =>
    by_cases hv : 0 < s.volume
    · simp [applyVolumeOp, handleVolumeMuteToggle, hv]
    · simpa [applyVolumeOp, handleVolumeMuteToggle, hv] using h

/-- C9. Positivity of `previousVolume` is preserved by every sequence of
`setVolume` and `toggleMute` operations, and unmuting from a muted state
(volume 0) always restores a strictly positive volume. -/
theorem previousVolume_positive_invariant (ops : List VolumeOp) (s : VolumeState)
    (h : 0 < s.previousVolume) :
    0 < (runVolumeOps s ops).previousVolume ∧
    ((runVolumeOps s ops).volume = 0 →
      0 < (handleVolumeMuteToggle (runVolumeOps s ops)).volume) := by
  have hrun : 0 < (runVolumeOps s ops).previousVolume := by
    induction ops generalizing s with
    | nil => exact h
    | cons op rest ih => exact ih (applyVolumeOp s op) (applyVolumeOp_prev_pos s op h)
  refine ⟨hrun, fun hmuted => ?_⟩
  have hnot : ¬ 0 < (runVolumeOps s ops).volume := by rw [hmuted]; norm_num
  simpa [handleVolumeMuteToggle, hnot] using hrun

/-- Witness for C9: setting volume to 1/2, muting, then setting 0
directly still leaves a positive `previousVolume`, and unmuting from the
resulting muted state restores a positive volume. -/
theorem previousVolume_positive_invariant_witness :
    0 < (runVolumeOps ⟨1, 1⟩ [.set (1/2), .mute, .set 0]).previousVolume ∧
    ((runVolumeOps ⟨1, 1⟩ [.set (1/2), .mute, .set 0]).volume = 0 →
      0 < (handleVolumeMuteToggle (runVolumeOps ⟨1, 1⟩ [.set (1/2), .mute, .set 0])).volume) := by
  exact previousVolume_positive_invariant [.set (1/2), .mute, .set 0] ⟨1, 1⟩ (by norm_num)

/-! ## Theorems: captions -/

theorem countShowing_nil : countShowing [] = 0 := rfl

theorem countShowing_cons (t : TextTrack) (ts : List TextTrack) :
    countShowing (t :: ts) = (if t.mode = .showing then 1 else 0) + countShowing ts := by
  by_cases h : t.mode = .showing <;> simp [countShowing, List.filter_cons, h, Nat.add_comm]

theorem countShowing_disableAll (ts : List TextTrack) :
    countShowing (disableAll ts) = 0 := by
  induction ts with
  | nil => rfl
  | cons t rest ih =>
    simp [disableAll, countShowing_cons] at ih ⊢
    simpa [disableAll] using ih

theorem countShowing_showFirst_le_one (ts : List TextTrack) (lbl : String)
    (h : countShowing ts = 0) : countShowing (showFirst ts lbl) ≤ 1 := by
  induction ts with
  | nil => simp [showFirst, countShowing_nil]
  | cons t rest ih =>
    rw [countShowing_cons] at h
    have ht : ¬ t.mode = .showing := by
      intro hm
      rw [if_pos hm] at h
      omega
    rw [if_neg ht] at h
    simp only [Nat.zero_add] at h
    by_cases hl : t.label == lbl
    · simp [showFirst, hl, countShowing_cons, h]
    · simp only [showFirst, hl, Bool.false_eq_true, if_false]
      rw [countShowing_cons, if_neg ht]
      simpa using ih h

theorem mem_disableAll (ts : List TextTrack) (t : TextTrack)
    (h : t ∈ disableAll ts) : t.mode = .disabled := by
  simp only [disableAll, List.mem_map] at h
  obtain ⟨u, _, rfl⟩ := h
  rfl

theorem showFirst_mem_disabled (ts : List TextTrack) (lbl : String)
    (hall : ∀ t ∈ ts, t.mode = .disabled) :
    ∀ t ∈ showFirst ts lbl, t.label ≠ lbl → t.mode = .disabled := by
  induction ts with
  | nil => simp [showFirst]
  | cons u rest ih =>
    intro t ht hne
    by_cases hl : u.label == lbl
    · simp only [showFirst, hl, if_true, List.mem_cons] at ht
      rcases ht with rfl | ht
      · exact absurd (by simpa using hl) hne
      · exact hall t (List.mem_cons_of_mem u ht)
    · simp only [showFirst, hl, Bool.false_eq_true, if_false, List.mem_cons] at ht
      rcases ht with rfl | ht
      · exact hall _ (List.mem_cons_self _ _)
      · exact ih (fun v hv => hall v (List.mem_cons_of_mem u hv)) t ht hne

theorem findTrack_disableAll_none (ts : List TextTrack) (lbl : String)
    (h : findTrack ts lbl = none) : findTrack (disableAll ts) lbl = none := by
  induction ts with
  | nil => rfl
  | cons t rest ih =>
    simp only [findTrack, List.find?_cons] at h ⊢
    by_cases hl : t.label == lbl
    · simp [hl] at h
    · simp only [disableAll, List.map_cons, List.find?_cons]
      simp only [hl, Bool.false_eq_true, if_false] at h ⊢
      simpa [disableAll, findTrack] using ih h

theorem applyCaptionOp_preserves_inv (s : CaptionState) (op : CaptionOp)
    (h : CaptionInv s) : CaptionInv (applyCaptionOp s op) := by
  obtain ⟨hone, hoff⟩ := h
  cases op with
  | tracksChange =>
    simp only [applyCaptionOp, handleTracksChange]
    by_cases hc : s.selectedTrack != "" && s.showCaptions
    · simp only [hc, if_true]
      have hshow : s.showCaptions = true := by
        rcases Bool.and_eq_true_iff.mp hc with ⟨_, h2⟩
        exact h2
      cases hfind : findTrack (disableAll s.tracks) s.selectedTrack with
      | some t =>
        refine ⟨?_, ?_⟩
        · exact countShowing_showFirst_le_one _ _ (countShowing_disableAll s.tracks)
        · intro hfalse
          rw [hshow] at hfalse
          exact absurd hfalse (by simp)
      | none =>
        exact ⟨by simp [countShowing_disableAll], fun _ => by simp [countShowing_disableAll]⟩
    · simp only [hc, Bool.false_eq_true, if_false]
      exact ⟨by simp [countShowing_disableAll], fun _ => by simp [countShowing_disableAll]⟩
  | toggle =>
    simp only [applyCaptionOp, handleCaptionToggle]
    by_cases hc : s.showCaptions = false
    · simp only [hc, if_true]
      cases hfind : (if s.selectedTrack == "" then none
          else findTrack s.tracks s.selectedTrack) with
      | some t =>
        refine ⟨?_, fun hfalse => ?_⟩
        · exact countShowing_showFirst_le_one _ _ (countShowing_disableAll s.tracks)
        · exact absurd hfalse (by simp)
      | none =>
        cases hts : s.tracks with
        | nil => exact ⟨by simpa [hts] using hone, fun hf => by simpa [hts] using hoff hf⟩
        | cons t rest =>
          have hz : countShowing (t :: rest) = 0 := hts ▸ hoff hc
          rw [countShowing_cons] at hz
          have hrest : countShowing rest = 0 := by omega
          refine ⟨?_, fun hfalse => ?_⟩
          · simp [setSelectedPersist, countShowing_cons, hrest]
          · exact absurd hfalse (by simp [setSelectedPersist])
    · simp only [hc, if_false]
      exact ⟨by simp [countShowing_disableAll], fun _ => by simp [countShowing_disableAll]⟩
  | select lbl =>
    simp only [applyCaptionOp, handleTrackSelect]
    cases hfind : findTrack (disableAll s.tracks) lbl with
    | some t =>
      refine ⟨?_, fun hfalse => ?_⟩
      · exact countShowing_showFirst_le_one _ _ (countShowing_disableAll s.tracks)
      · exact absurd hfalse (by simp [setSelectedPersist])
    | none =>
      exact ⟨by simp [countShowing_disableAll], fun _ => by simp [countShowing_disableAll]⟩

/-- C7. Single-showing caption invariant: starting from a state
satisfying the caption invariant (at most one track showing, none
showing while captions are off), every sequence of caption operations —
metadata-load enumeration, caption toggles, track selections — leaves at
most one text track in `showing` mode; moreover `handleTrackSelect`
leaves every track with a different label disabled. -/
theorem caption_single_showing (s : CaptionState) (ops : List CaptionOp)
    (h : CaptionInv s) :
    countShowing (runCaptionOps s ops).tracks ≤ 1 ∧
    (∀ lbl, ∀ t ∈ (handleTrackSelect s lbl).tracks, t.label ≠ lbl → t.mode = .disabled) := by
  constructor
  · have : CaptionInv (runCaptionOps s ops) := by
      induction ops generalizing s with
      | nil => exact h
      | cons op rest ih => exact ih (applyCaptionOp s op) (applyCaptionOp_preserves_inv s op h)
    exact this.1
  · intro lbl t ht hne
    simp only [handleTrackSelect] at ht
    cases hfind : findTrack (disableAll s.tracks) lbl with
    | some u =>
      rw [hfind] at ht
      simp only [setSelectedPersist] at ht
      exact showFirst_mem_disabled (disableAll s.tracks) lbl
        (fun v hv => mem_disableAll s.tracks v hv) t ht hne
    | none =>
      rw [hfind] at ht
      exact mem_disableAll s.tracks t ht

/-- Witness for C7: two English/French tracks with the invariant
initially satisfied; after toggling captions on and selecting "French",
at most one track is showing, and selecting a label disables the rest. -/
theorem caption_single_showing_witness :
    countShowing (runCaptionOps
      ⟨[⟨"English", .disabled⟩, ⟨"French", .disabled⟩], "", false, none⟩
      [.toggle, .select "French"]).tracks ≤ 1 ∧
    (∀ lbl, ∀ t ∈ (handleTrackSelect
      ⟨[⟨"English", .disabled⟩, ⟨"French", .disabled⟩], "", false, none⟩ lbl).tracks,
      t.label ≠ lbl → t.mode = .disabled) := by
  exact caption_single_showing
    ⟨[⟨"English", .disabled⟩, ⟨"French", .disabled⟩], "", false, none⟩
    [.toggle, .select "French"]
    (by constructor <;> simp [countShowing])

/-- C10. Selecting an unknown label is not atomic: when no available
track carries the requested label, `handleTrackSelect` leaves every
track disabled while `selectedTrack`, `showCaptions` and the persisted
caption-track key keep their previous values — the disable-all step is
not rolled back. -/
theorem trackSelect_unknown_label (s : CaptionState) (lbl : String)
    (h : findTrack s.tracks lbl = none) :
    (∀ t ∈ (handleTrackSelect s lbl).tracks, t.mode = .disabled) ∧
    (handleTrackSelect s lbl).selectedTrack = s.selectedTrack ∧
    (handleTrackSelect s lbl).showCaptions = s.showCaptions ∧
    (handleTrackSelect s lbl).persistedTrack = s.persistedTrack := by
  have hnone : findTrack (disableAll s.tracks) lbl = none :=
    findTrack_disableAll_none s.tracks lbl h
  simp only [handleTrackSelect, hnone]
  exact ⟨fun t ht => mem_disableAll s.tracks t ht, trivial, trivial, trivial⟩

/-- Witness for C10: selecting "German" when only an English track
(currently showing) exists disables it and changes no other state. -/
theorem trackSelect_unknown_label_witness :
    (∀ t ∈ (handleTrackSelect
      ⟨[⟨"English", .showing⟩], "English", true, some "English"⟩ "German").tracks,
      t.mode = .disabled) ∧
    (handleTrackSelect ⟨[⟨"English", .showing⟩], "English", true, some "English"⟩
      "German").selectedTrack = "English" ∧
    (handleTrackSelect ⟨[⟨"English", .showing⟩], "English", true, some "English"⟩
      "German").showCaptions = true ∧
    (handleTrackSelect ⟨[⟨"English", .showing⟩], "English", true, some "English"⟩
      "German").persistedTrack = some "English" := by
  exact trackSelect_unknown_label
    ⟨[⟨"English", .showing⟩], "English", true, some "English"⟩ "German" (by rfl)

/-! ## Theorems: frame rasterization geometry -/

/-- C4 counterexample: for a 4:3 frame (640x480) drawn on the 16:9
preview canvas (320x180), `handleSeeked` computes a draw height of 240,
exceeding the canvas height of 180, with a negative vertical offset of
-30 — the frame is cropped (cover), not letterboxed. -/
theorem letterbox_counterexample :
    (computeDrawRect 640 480 320 180).drawHeight = 240 ∧
    ¬ (computeDrawRect 640 480 320 180).drawHeight ≤ 180 ∧
    (computeDrawRect 640 480 320 180).offsetY = -30 ∧
    ¬ 0 ≤ (computeDrawRect 640 480 320 180).offsetY := by
  norm_num [computeDrawRect]

/-- C4 amended: on every completed seek the frame is drawn preserving
the source aspect ratio, but scaled to *cover* the canvas rather than
fit inside it: the constraining dimension matches the canvas and the
other is at least the canvas's, centered with non-positive offsets
(`drawWidth >= canvas.width`, `drawHeight >= canvas.height`,
`2 * offset = canvas - draw` in each axis). -/
theorem cover_rasterization (vw vh cw ch : ℚ)
    (hvw : 0 < vw) (hvh : 0 < vh) (hcw : 0 < cw) (hch : 0 < ch) :
    cw ≤ (computeDrawRect vw vh cw ch).drawWidth ∧
    ch ≤ (computeDrawRect vw vh cw ch).drawHeight ∧
    (computeDrawRect vw vh cw ch).offsetX ≤ 0 ∧
    (computeDrawRect vw vh cw ch).offsetY ≤ 0 ∧
    (computeDrawRect vw vh cw ch).drawWidth * vh
      = (computeDrawRect vw vh cw ch).drawHeight * vw ∧
    2 * (computeDrawRect vw vh cw ch).offsetX
      = cw - (computeDrawRect vw vh cw ch).drawWidth ∧
    2 * (computeDrawRect vw vh cw ch).offsetY
      = ch - (computeDrawRect vw vh cw ch).drawHeight := by
  have hA : 0 < vw / vh := div_pos hvw hvh
  have hcw2 : 0 < cw := hcw
  simp only [computeDrawRect]
  split_ifs with h
  · have h1 : cw < vw / vh * ch := (div_lt_iff₀ hch).mp h
    have h2 : cw ≤ ch * (vw / vh) := by linarith
    refine ⟨h2, le_refl ch, by linarith, by norm_num, ?_, by ring, by ring⟩
    field_simp
  · push_neg at h
    have h1 : vw / vh * ch ≤ cw := (le_div_iff₀ hch).mp h
    have h2 : ch ≤ cw / (vw / vh) := by
      rw [le_div_iff₀ hA]
      linarith
    refine ⟨le_refl cw, h2, by norm_num, by linarith, ?_, by ring, by ring⟩
    field_simp

/-- Witness for C4 (amended) at the counterexample's dimensions. -/
theorem cover_rasterization_witness :
    (320 : ℚ) ≤ (computeDrawRect 640 480 320 180).drawWidth ∧
    (180 : ℚ) ≤ (computeDrawRect 640 480 320 180).drawHeight ∧
    (computeDrawRect 640 480 320 180).offsetX ≤ 0 ∧
    (computeDrawRect 640 480 320 180).offsetY ≤ 0 ∧
    (computeDrawRect 640 480 320 180).drawWidth * 480
      = (computeDrawRect 640 480 320 180).drawHeight * 640 ∧
    2 * (computeDrawRect 640 480 320 180).offsetX
      = 320 - (computeDrawRect 640 480 320 180).drawWidth ∧
    2 * (computeDrawRect 640 480 320 180).offsetY
      = 180 - (computeDrawRect 640 480 320 180).drawHeight := by
  exact cover_rasterization 640 480 320 180
    (by norm_num) (by norm_num) (by norm_num) (by norm_num)

/-! ## Theorems: debounced seeking -/

theorem fireDueSeek_not_due (s : DebounceState) (t : Nat)
    (h : ∀ f y, s.pendingSeek = some (f, y) → t < f) : fireDueSeek s t = s := by
  cases hp : s.pendingSeek with
  | none => simp [fireDueSeek, hp]
  | some p =>
    obtain ⟨f, y⟩ := p
    have hf := h f y hp
    simp [fireDueSeek, hp, Nat.not_le.mpr hf]

theorem debouncedSeek_uncached (s : DebounceState) (t : Nat) (x : ℚ)
    (h : cacheGet s.cache (Int.floor x) = none) :
    debouncedSeek s t x = { s with pendingSeek := some (t + 150, x) } := by
  simp [debouncedSeek, h]

theorem runDebounce_pending (reqs : List (Nat × ℚ)) :
    ∀ (s : DebounceState) (t0 : Nat) (x0 : ℚ),
    cacheGet s.cache (Int.floor x0) = none →
    (∀ p ∈ reqs, cacheGet s.cache (Int.floor p.2) = none) →
    (∀ f y, s.pendingSeek = some (f, y) → t0 < f) →
    gapsOk ((t0, x0) :: reqs) = true →
    runDebounce s ((t0, x0) :: reqs) =
      { s with
        pendingSeek := some ((lastReq (t0, x0) reqs).1 + 150, (lastReq (t0, x0) reqs).2) } := by
  induction reqs with
  | nil =>
    intro s t0 x0 h0 _ hpend _
    simp [runDebounce, fireDueSeek_not_due s t0 hpend,
      debouncedSeek_uncached s t0 x0 h0, lastReq]
  | cons p rest ih =>
    intro s t0 x0 h0 hall hpend hgaps
    obtain ⟨t1, x1⟩ := p
    have hstep : runDebounce s ((t0, x0) :: (t1, x1) :: rest)
        = runDebounce (debouncedSeek (fireDueSeek s t0) t0 x0) ((t1, x1) :: rest) := rfl
    rw [hstep, fireDueSeek_not_due s t0 hpend, debouncedSeek_uncached s t0 x0 h0]
    have hg : t1 < t0 + 150 ∧ gapsOk ((t1, x1) :: rest) = true := by
      simpa [gapsOk, Bool.and_eq_true, decide_eq_true_eq] using hgaps
    have h1 : cacheGet s.cache (Int.floor x1) = none := hall (t1, x1) (by simp)
    have hall1 : ∀ q ∈ rest, cacheGet s.cache (Int.floor q.2) = none :=
      fun q hq => hall q (by simp [hq])
    have hpend1 : ∀ f y,
        ({ s with pendingSeek := some (t0 + 150, x0) } : DebounceState).pendingSeek
          = some (f, y) → t1 < f := by
      intro f y hfy
      simp only [Option.some.injEq, Prod.mk.injEq] at hfy
      omega
    rw [ih { s with pendingSeek := some (t0 + 150, x0) } t1 x1 h1 hall1 hpend1 hg.2]
    rfl

/-- C1. Debounce coalescing: a burst of `debouncedSeek` requests at
uncached target times, each arriving inside the 150 ms window of its
predecessor, issues no seek of the hidden preview element during the
burst, and once the final window elapses exactly one seek is issued, to
the time of the last request — every earlier pending timeout was
cancelled by the arrival of the next request. -/
theorem debounce_coalescing (s : DebounceState) (t0 : Nat) (x0 : ℚ)
    (reqs : List (Nat × ℚ)) (tEnd : Nat)
    (hpend : s.pendingSeek = none) (hiss : s.issuedSeeks = [])
    (h0 : cacheGet s.cache (Int.floor x0) = none)
    (hall : ∀ p ∈ reqs, cacheGet s.cache (Int.floor p.2) = none)
    (hgaps : gapsOk ((t0, x0) :: reqs) = true)
    (hEnd : (lastReq (t0, x0) reqs).1 + 150 ≤ tEnd) :
    (runDebounce s ((t0, x0) :: reqs)).issuedSeeks = [] ∧
    (fireDueSeek (runDebounce s ((t0, x0) :: reqs)) tEnd).issuedSeeks
      = [(lastReq (t0, x0) reqs).2] := by
  have hnone : ∀ f y, s.pendingSeek = some (f, y) → t0 < f := by
    intro f y hfy
    rw [hpend] at hfy
    exact absurd hfy (by simp)
  have hrun := runDebounce_pending reqs s t0 x0 h0 hall hnone hgaps
  constructor
  · rw [hrun]
    exact hiss
  · rw [hrun]
    simp [fireDueSeek, hEnd, hiss]

/-- Witness for C1: the spec's burst — requests at t = 0 ms, 50 ms and
100 ms for times 10 s, 12 s and 15 s on an empty cache — issues exactly
one seek, to 15 s, once 150 ms have passed since the last request. -/
theorem debounce_coalescing_witness :
    (runDebounce ⟨[], none, none, []⟩ [(0, 10), (50, 12), (100, 15)]).issuedSeeks = [] ∧
    (fireDueSeek (runDebounce ⟨[], none, none, []⟩ [(0, 10), (50, 12), (100, 15)])
      250).issuedSeeks = [15] := by
  have h := debounce_coalescing ⟨[], none, none, []⟩ 0 10 [(50, 12), (100, 15)] 250
    rfl rfl rfl (by intro p hp; rfl) (by decide) (by simp [lastReq])
  simpa [lastReq] using h

/-- C2. Cache short-circuit: when the floored target time is already in
the frame cache, `debouncedSeek` draws the cached frame onto the canvas
and creates no new debounce timeout (and issues no seek). -/
theorem cache_short_circuit (s : DebounceState) (now : Nat) (time : ℚ) (frame : String)
    (h : cacheGet s.cache (Int.floor time) = some frame) :
    debouncedSeek s now time = { s with pendingSeek := none, canvas := some frame } := by
  simp [debouncedSeek, h]

/-- Witness for C2 at the spec's example: second 7 cached, hover target
7.8 s renders the cached frame and leaves no pending timeout. -/
theorem cache_short_circuit_witness :
    debouncedSeek ⟨[(7, "frame7")], none, none, []⟩ 0 (78/10)
      = ⟨[(7, "frame7")], none, some "frame7", []⟩ := by
  have hfloor : Int.floor ((78 : ℚ)/10) = 7 := by norm_num [Int.floor_eq_iff]
  exact cache_short_circuit ⟨[(7, "frame7")], none, none, []⟩ 0 (78/10) "frame7"
    (by simp [cacheGet, hfloor])

/-! ## Theorems: pointer leave and boundary exemption -/

/-- C3 counterexample: hovering a paused 1000 px track at offset 50 with
duration 200 s schedules a seek to 10 s; leaving the track hides the
preview but leaves the timeout pending, and at t = 200 ms the seek is
still issued — after the pointer has left. -/
theorem scrub_leave_counterexample :
    (onMouseLeave (handleProgressHover pbInit 0 50 0 1000 200)).previewTime = none ∧
    (onMouseLeave (handleProgressHover pbInit 0 50 0 1000 200)).deb.pendingSeek
      = some (150, 10) ∧
    (fireSeekPB (onMouseLeave (handleProgressHover pbInit 0 50 0 1000 200))
      200).deb.issuedSeeks = [10] := by
  norm_num [pbInit, handleProgressHover, debouncedSeek, cacheGet, onMouseLeave,
    fireSeekPB, fireDueSeek]

/-- C3 amended: when the pointer leaves the track the preview is hidden
immediately — the preview time is cleared and the moving flag reset —
but the pending debounced seek is NOT cancelled: the timeout and the
list of issued seeks are untouched, so a seek scheduled less than 150 ms
earlier still fires after the pointer has left. -/
theorem mouseLeave_hides_but_keeps_pending (s : ProgressBarState) :
    (onMouseLeave s).previewTime = none ∧
    (onMouseLeave s).isMoving = false ∧
    (onMouseLeave s).deb.pendingSeek = s.deb.pendingSeek ∧
    (onMouseLeave s).deb.issuedSeeks = s.deb.issuedSeeks :=
  ⟨rfl, rfl, rfl, rfl⟩

/-- C8 counterexample: on a 200 px wide container, a boundary hover at
offset 10 renders the preview box at left offset 40, below the claimed
160 px lower bound. -/
theorem boundary_exemption_counterexample :
    ((10 : ℚ) ≤ 160 ∨ (200 : ℚ) - 160 ≤ 10) ∧
    renderedLeft 10 200 = 40 ∧
    ¬ 160 ≤ renderedLeft 10 200 := by
  norm_num [renderedLeft]

/-- C8 amended: a paused hover within 160 px of either end of the track
clears the moving/collapsed state so the preview shows fully expanded,
records the pointer offset as the preview position, and the box's
rendered left offset is `min (max 160 position) (containerWidth - 160)`;
whenever the container is at least 320 px wide this offset is at least
160 px (narrower containers can push it below 160). -/
theorem boundary_exemption (s : ProgressBarState) (now : Nat)
    (clientX rectLeft rectWidth duration : ℚ)
    (hplay : s.isPlaying = false)
    (hbound : clientX - rectLeft ≤ 160 ∨ s.containerWidth - 160 ≤ clientX - rectLeft) :
    (handleProgressHover s now clientX rectLeft rectWidth duration).isMoving = false ∧
    (handleProgressHover s now clientX rectLeft rectWidth duration).previewPosition
      = clientX - rectLeft ∧
    renderedLeft (clientX - rectLeft) s.containerWidth
      = min (max 160 (clientX - rectLeft)) (s.containerWidth - 160) ∧
    (320 ≤ s.containerWidth →
      160 ≤ renderedLeft (clientX - rectLeft) s.containerWidth) := by
  have hmain :
      (handleProgressHover s now clientX rectLeft rectWidth duration).isMoving = false ∧
      (handleProgressHover s now clientX rectLeft rectWidth duration).previewPosition
        = clientX - rectLeft := by
    simp only [handleProgressHover, hplay, Bool.false_eq_true, if_false]
    rw [if_pos hbound]
    exact ⟨rfl, rfl⟩
  refine ⟨hmain.1, hmain.2, rfl, fun h => ?_⟩
  unfold renderedLeft
  exact le_min (le_max_left _ _) (by linarith)

/-- Witness for C8 (amended): the spec's example — offset 50 on a
1000 px track — shows the preview expanded at left offset 160. -/
theorem boundary_exemption_witness :
    (handleProgressHover pbInit 0 50 0 1000 200).isMoving = false ∧
    (handleProgressHover pbInit 0 50 0 1000 200).previewPosition = 50 - 0 ∧
    renderedLeft (50 - 0) pbInit.containerWidth
      = min (max 160 (50 - 0)) (pbInit.containerWidth - 160) ∧
    (320 ≤ pbInit.containerWidth →
      160 ≤ renderedLeft (50 - 0) pbInit.containerWidth) := by
  exact boundary_exemption pbInit 0 50 0 1000 200 rfl (by norm_num [pbInit])

end Jellyroll
